import Mathlib

/-!
Verification of the caching and deduplication layer of the `prc.api`
client (`src/prc/client.py`, `src/prc/server.py`,
`src/prc/models/server/logs.py`).

The embedding is shallow: Python objects become structures, methods become
pure functions threading state, Python exceptions become `Except`/`Option`
results, and event-loop time is an explicit integer parameter (seconds).
The `prc.utility` cache classes (`Cache`, `KeylessCache`) are not part of
the provided sources; they are modelled from the specification, as marked
on their doc comments. Everything else is translated from the source files.
-/

set_option autoImplicit false

namespace PrcApi

/-- Event-loop / wall-clock time in seconds. -/
abbrev Time := Int

/-- Python errors that the embedded fragments can raise. -/
inductive PyErr where
  | valueError
  | attributeError
  | indexError
  deriving DecidableEq, Repr

/-! ## BoundedTTLCache (`prc.utility.Cache`) -/

/-- Modelled from the spec: `BoundedTTLCache<K,V>` (`prc.utility.Cache`,
whose source is not under `src/`). Entries are `(key, value, inserted_at)`
kept in insertion order; `ttl = 0` means no expiry; the invariant
`entries.length ≤ capacity` is maintained by `set`. -/
structure Cache (K V : Type) where
  capacity : Nat
  ttl : Nat
  entries : List (K × V × Time)
  deriving Repr

/-- Modelled from the spec: `get` returns the value when the key is present
and, when `ttl > 0`, strictly less than `ttl` seconds old; otherwise the
entry is treated as absent. -/
def Cache.get {K V : Type} [DecidableEq K] (c : Cache K V) (now : Time) (k : K) :
    Option V :=
  match c.entries.find? (fun e => e.1 == k) with
  | none => none
  | some e =>
    if c.ttl = 0 then some e.2.1
    else if now - e.2.2 < (c.ttl : Int) then some e.2.1
    else none

/-- Modelled from the spec: `set` inserts or replaces; re-setting an
existing key refreshes its insertion-order position and timestamp; when a
new key is inserted while `entries.length = capacity`, the oldest-inserted
entry is evicted first. Returns the stored value together with the new
cache. -/
def Cache.set {K V : Type} [DecidableEq K] (c : Cache K V) (now : Time) (k : K)
    (v : V) : V × Cache K V :=
  let entries :=
    if c.entries.any (fun e => e.1 == k) then
      c.entries.filter (fun e => !(e.1 == k)) ++ [(k, v, now)]
    else if c.entries.length = c.capacity then
      c.entries.drop 1 ++ [(k, v, now)]
    else
      c.entries ++ [(k, v, now)]
  (v, { c with entries := entries })

/-- Modelled from the spec: `items` is a TTL-filtered snapshot in insertion
order. -/
def Cache.items {K V : Type} (c : Cache K V) (now : Time) : List (K × V) :=
  (c.entries.filter
    (fun e => c.ttl = 0 || decide (now - e.2.2 < (c.ttl : Int)))).map
    (fun e => (e.1, e.2.1))

/-! ## BoundedSequence (`prc.utility.KeylessCache`) -/

/-- Stable descending insertion by an integer key: an element is placed
before the first element whose key is not greater than its own, so earlier
insertions among equal keys stay first. -/
def insertDesc {V : Type} (key : V → Int) (v : V) : List V → List V
  | [] => [v]
  | w :: ws => if key v < key w then w :: insertDesc key v ws else v :: w :: ws

/-- Stable sort, descending in `key` (the order Python's
`sorted(key=..., reverse=True)` produces). -/
def sortDesc {V : Type} (key : V → Int) (l : List V) : List V :=
  l.foldr (insertDesc key) []

/-- Modelled from the spec: `BoundedSequence<V>` (`prc.utility.KeylessCache`,
whose source is not under `src/`). `data` is the insertion-order contents;
`sortKeyDesc` mirrors the `sort=(key, descending)` constructor argument used
for join logs. -/
structure KeylessCache (V : Type) where
  capacity : Nat
  ttl : Nat
  sortKeyDesc : Option (V → Int)
  data : List V

/-- Modelled from the spec: `add` appends, evicting the earliest-inserted
item first when the sequence is at capacity. -/
def KeylessCache.add {V : Type} (c : KeylessCache V) (v : V) : KeylessCache V :=
  { c with
    data :=
      (if c.data.length = c.capacity then c.data.drop 1 else c.data) ++ [v] }

/-- Modelled from the spec: `items` returns the contents sorted by the
configured key (descending) when one is set, insertion order otherwise;
it does not TTL-filter. -/
def KeylessCache.items {V : Type} (c : KeylessCache V) : List V :=
  match c.sortKeyDesc with
  | some key => sortDesc key c.data
  | none => c.data

theorem mem_insertDesc {V : Type} (key : V → Int) (v x : V) (l : List V) :
    x ∈ insertDesc key v l ↔ x = v ∨ x ∈ l := by
  induction l with
  | nil => simp [insertDesc]
  | cons w ws ih =>
    simp only [insertDesc]
    split
    · rw [List.mem_cons, ih, List.mem_cons]
      tauto
    · exact List.mem_cons

theorem mem_sortDesc {V : Type} (key : V → Int) (x : V) (l : List V) :
    x ∈ sortDesc key l ↔ x ∈ l := by
  induction l with
  | nil => simp [sortDesc]
  | cons w ws ih =>
    simp only [sortDesc, List.foldr_cons] at *
    rw [mem_insertDesc, List.mem_cons, ih]

theorem mem_items_iff {V : Type} (c : KeylessCache V) (x : V) :
    x ∈ c.items ↔ x ∈ c.data := by
  unfold KeylessCache.items
  cases c.sortKeyDesc with
  | none => rfl
  | some key => exact mem_sortDesc key x c.data

/-! ## Log entries (`src/prc/models/server/logs.py`) -/

/-- The dedup scan of `LogEntry.__init__` (src/prc/models/server/logs.py,
lines 24-33): walk `cache.items()`; at an entry whose `created_at` equals
the candidate's, `break` when the dedupe predicate holds on it (or when no
predicate was supplied); Python's `for`/`else` adds the candidate exactly
when the loop finished without `break`. Returns `true` iff the candidate is
to be added. -/
def logScanInsert {E : Type} (createdAt : Time) (timeOf : E → Time)
    (dedupe : Option (E → Bool)) : List E → Bool
  | [] => true
  | e :: es =>
    if timeOf e = createdAt then
      match dedupe with
      | some d =>
        if d e then false else logScanInsert createdAt timeOf dedupe es
      | none => false
    else logScanInsert createdAt timeOf dedupe es

/-- Method `LogEntry.__init__` when a cache is supplied: scan `cache.items()` and
`add` the candidate unless a duplicate was found. -/
def LogEntry.insert {E : Type} (timeOf : E → Time) (cache : KeylessCache E)
    (dedupe : Option (E → Bool)) (self : E) : KeylessCache E :=
  if logScanInsert (timeOf self) timeOf dedupe cache.items then cache.add self
  else cache

/-- Placeholder for `ServerPlayer` values held by the server player cache;
only identity matters to the claims (the parser, `models/server/player.py`,
is not under `src/`). -/
structure ServerPlayer where
  id : Nat
  deriving DecidableEq, Repr

/-- Placeholder for `Vehicle` values held by the server vehicle cache
(`models/server/vehicle.py` is not under `src/`). -/
structure Vehicle where
  ownerId : Nat
  deriving DecidableEq, Repr

/-- Parsed join-log record: the fields `JoinEntry.__init__` reads from the
raw dict — `Timestamp` (default 0), the `Player` string flattened to the
player id the dedup predicate uses, and the `Join` flag. -/
structure JoinData where
  timestamp : Time
  playerId : Nat
  join : Bool
  deriving DecidableEq, Repr

structure JoinEntry where
  created_at : Time
  playerId : Nat
  is_join : Bool
  deriving DecidableEq, Repr

/-- Constructor `ServerCache.__init__` (src/prc/server.py lines 24-37): the caches a
`ServerCache` instance owns are exactly `players` (50 entries, no TTL),
`vehicles` (50 entries, 1h TTL) and `join_logs` (150 entries, 6h TTL,
sorted by `created_at` descending). No `kill_logs` or `command_logs`
attribute is ever assigned. -/
structure ServerCacheState where
  players : Cache Nat ServerPlayer
  vehicles : KeylessCache Vehicle
  join_logs : KeylessCache JoinEntry

/-- A fresh `ServerCache()` with the default configs. -/
def ServerCacheState.init : ServerCacheState :=
  { players := { capacity := 50, ttl := 0, entries := [] }
    vehicles := { capacity := 50, ttl := 3600, sortKeyDesc := none, data := [] }
    join_logs :=
      { capacity := 150, ttl := 21600,
        sortKeyDesc := some (fun e => e.created_at), data := [] } }

/-- Constructor `JoinEntry.__init__` (src/prc/models/server/logs.py lines 49-62): parse
the player and the join flag, then run the base-class dedup against
`server._server_cache.join_logs` with predicate "same player id". Returns
the constructed entry together with the updated server cache. -/
def joinEntryInit (sc : ServerCacheState) (d : JoinData) :
    JoinEntry × ServerCacheState :=
  let self : JoinEntry :=
    { created_at := d.timestamp, playerId := d.playerId, is_join := d.join }
  (self,
    { sc with
      join_logs :=
        LogEntry.insert (fun e => e.created_at) sc.join_logs
          (some (fun e => e.playerId == self.playerId)) self })

structure KillData where
  timestamp : Time
  killedId : Nat
  killerId : Nat
  deriving DecidableEq, Repr

structure KillEntry where
  created_at : Time
  killedId : Nat
  killerId : Nat
  deriving DecidableEq, Repr

/-- The `kill_logs` attribute that `KillEntry.__init__` dereferences on the
server cache: `ServerCache.__init__` never assigns such an attribute, so
the Python `getattr` finds nothing (an `AttributeError` is raised at the
access). -/
def ServerCacheState.killLogs (_sc : ServerCacheState) :
    Option (KeylessCache KillEntry) :=
  none

/-- Constructor `KillEntry.__init__` (src/prc/models/server/logs.py lines 65-78): parse
killed/killer, then the base class scans `server._server_cache.kill_logs`
with predicate "same killed-victim id"; the attribute access itself fails
when the attribute does not exist. -/
def killEntryInit (sc : ServerCacheState) (d : KillData) :
    Except PyErr (KillEntry × KeylessCache KillEntry) :=
  let self : KillEntry :=
    { created_at := d.timestamp, killedId := d.killedId, killerId := d.killerId }
  match sc.killLogs with
  | none => Except.error PyErr.attributeError
  | some cache =>
    Except.ok
      (self,
        LogEntry.insert (fun e => e.created_at) cache
          (some (fun e => e.killedId == self.killedId)) self)

structure CommandData where
  timestamp : Time
  authorId : Nat
  deriving DecidableEq, Repr

structure CommandEntry where
  created_at : Time
  authorId : Nat
  deriving DecidableEq, Repr

/-- The `command_logs` attribute that `CommandEntry.__init__` dereferences:
likewise never assigned by `ServerCache.__init__`. -/
def ServerCacheState.commandLogs (_sc : ServerCacheState) :
    Option (KeylessCache CommandEntry) :=
  none

/-- Constructor `CommandEntry.__init__` (src/prc/models/server/logs.py lines 81-94):
parse the author, then the base class scans
`server._server_cache.command_logs` with predicate "same author id"; the
attribute access fails when the attribute does not exist. -/
def commandEntryInit (sc : ServerCacheState) (d : CommandData) :
    Except PyErr (CommandEntry × KeylessCache CommandEntry) :=
  let self : CommandEntry :=
    { created_at := d.timestamp, authorId := d.authorId }
  match sc.commandLogs with
  | none => Except.error PyErr.attributeError
  | some cache =>
    Except.ok
      (self,
        LogEntry.insert (fun e => e.created_at) cache
          (some (fun e => e.authorId == self.authorId)) self)

structure ModCallData where
  timestamp : Time
  callerId : Nat
  moderator : Option Nat
  deriving DecidableEq, Repr

structure ModCallEntry where
  created_at : Time
  callerId : Nat
  responderId : Option Nat
  is_acknowledged : Bool
  deriving DecidableEq, Repr

/-- Constructor `ModCallEntry.__init__` (src/prc/models/server/logs.py lines 97-108):
parse caller and optional responder, then call the base class with *no*
cache and no dedupe predicate — `LogEntry.__init__` with `cache=None` only
sets `created_at` and touches no cache, so the server cache is passed
through unchanged. -/
def modCallEntryInit (sc : ServerCacheState) (d : ModCallData) :
    ModCallEntry × ServerCacheState :=
  ({ created_at := d.timestamp, callerId := d.callerId,
     responderId := d.moderator, is_acknowledged := d.moderator.isSome }, sc)

theorem logScanInsert_eq_not_any {E : Type} (t : Time) (timeOf : E → Time)
    (d : E → Bool) (l : List E) :
    logScanInsert t timeOf (some d) l =
      !(l.any fun e => decide (timeOf e = t) && d e) := by
  induction l with
  | nil => rfl
  | cons e es ih =>
    simp only [logScanInsert, List.any_cons]
    by_cases h : timeOf e = t
    · rw [if_pos h]
      cases hd : d e
      · simp [h, hd, ih]
      · simp [h, hd]
    · rw [if_neg h]
      simp [h, ih]

theorem LogEntry.insert_eq {E : Type} (timeOf : E → Time)
    (cache : KeylessCache E) (d : E → Bool) (self : E) :
    LogEntry.insert timeOf cache (some d) self =
      if ∃ e ∈ cache.items, timeOf e = timeOf self ∧ d e = true then cache
      else cache.add self := by
  unfold LogEntry.insert
  rw [logScanInsert_eq_not_any]
  by_cases h : ∃ e ∈ cache.items, timeOf e = timeOf self ∧ d e = true
  · rw [if_pos h]
    have ha : (cache.items.any
        fun e => decide (timeOf e = timeOf self) && d e) = true := by
      rw [List.any_eq_true]
      rcases h with ⟨e, he, ht, hd⟩
      exact ⟨e, he, by simp [ht, hd]⟩
    rw [ha]
    simp
  · have ha : (cache.items.any
        fun e => decide (timeOf e = timeOf self) && d e) = false := by
      cases hb : cache.items.any fun e => decide (timeOf e = timeOf self) && d e
      · rfl
      · rcases List.any_eq_true.mp hb with ⟨e, he, hdec⟩
        refine absurd ?_ h
        refine ⟨e, he, ?_, ?_⟩
        · have := Bool.and_elim_left hdec
          exact of_decide_eq_true this
        · exact Bool.and_elim_right hdec
    rw [ha, if_neg h]
    simp

/-- Concrete sample data used by witnesses. -/
def sampleJoinEntry : JoinEntry :=
  { created_at := 100, playerId := 7, is_join := false }

def sampleJoinCache : KeylessCache JoinEntry :=
  { capacity := 150, ttl := 21600, sortKeyDesc := some (fun e => e.created_at),
    data := [sampleJoinEntry] }

def sampleServerCache : ServerCacheState :=
  { ServerCacheState.init with join_logs := sampleJoinCache }

/-- Claim C1: A parsed join-log record is inserted into the join-log bounded
sequence iff no stored entry has both the same `created_at` and the same
player id; and the scan stops (returning "reject") at the first entry
matching on both, regardless of what follows it. A timestamp match with a
different player id alone does not prevent insertion, by the first part. -/
theorem c1_join_log_dedup (sc : ServerCacheState) (d : JoinData) :
    ((joinEntryInit sc d).2.join_logs =
      if ∃ e ∈ sc.join_logs.items,
          e.created_at = d.timestamp ∧ e.playerId = d.playerId
      then sc.join_logs
      else sc.join_logs.add (joinEntryInit sc d).1) ∧
    (∀ (e : JoinEntry) (rest : List JoinEntry), e.created_at = d.timestamp →
      e.playerId = d.playerId →
      logScanInsert d.timestamp (fun x => x.created_at)
        (some (fun x => x.playerId == d.playerId)) (e :: rest) = false) := by
  constructor
  · have h := LogEntry.insert_eq (fun e : JoinEntry => e.created_at)
      sc.join_logs (fun e => e.playerId == d.playerId)
      { created_at := d.timestamp, playerId := d.playerId, is_join := d.join }
    simp only [joinEntryInit]
    rw [h]
    simp only [beq_iff_eq]
  · intro e rest ht hp
    simp [logScanInsert, ht, hp]

theorem c1_join_log_dedup_witness :
    ((joinEntryInit sampleServerCache
        { timestamp := 100, playerId := 7, join := true }).2.join_logs =
      sampleServerCache.join_logs) ∧
    logScanInsert 100 (fun x => x.created_at)
      (some (fun x => x.playerId == (7 : Nat))) [sampleJoinEntry] = false := by
  constructor
  · rw [(c1_join_log_dedup sampleServerCache
      { timestamp := 100, playerId := 7, join := true }).1,
      if_pos (by decide)]
  · exact (c1_join_log_dedup sampleServerCache
      { timestamp := 100, playerId := 7, join := true }).2 sampleJoinEntry []
      rfl rfl

/-- Claim C9: The join/leave dedup predicate compares only the player id and
ignores `is_join`: a candidate matching a stored entry's timestamp and
player id is discarded (the server cache is returned unchanged) even when
one entry records a join and the other a leave. -/
theorem c9_dedup_ignores_is_join (sc : ServerCacheState) (d : JoinData)
    (e : JoinEntry) (he : e ∈ sc.join_logs.items)
    (ht : e.created_at = d.timestamp) (hp : e.playerId = d.playerId)
    (_hj : e.is_join ≠ d.join) :
    (joinEntryInit sc d).2 = sc := by
  have h : LogEntry.insert (fun x : JoinEntry => x.created_at) sc.join_logs
      (some fun x => x.playerId == d.playerId)
      { created_at := d.timestamp, playerId := d.playerId, is_join := d.join }
        = sc.join_logs := by
    rw [LogEntry.insert_eq]
    exact if_pos ⟨e, he, ht, by simp [hp]⟩
  have h2 : (joinEntryInit sc d).2 =
      { sc with
        join_logs :=
          LogEntry.insert (fun x : JoinEntry => x.created_at) sc.join_logs
            (some fun x => x.playerId == d.playerId)
            { created_at := d.timestamp, playerId := d.playerId,
              is_join := d.join } } := rfl
  rw [h2, h]

theorem c9_dedup_ignores_is_join_witness :
    (joinEntryInit sampleServerCache
      { timestamp := 100, playerId := 7, join := true }).2 = sampleServerCache :=
  c9_dedup_ignores_is_join sampleServerCache
    { timestamp := 100, playerId := 7, join := true } sampleJoinEntry
    (by decide) rfl rfl (by decide)

/-- Claim C4: The claim says kill/command log entries are deduplicated
against bounded histories and that construction succeeds; but
`ServerCache.__init__` never creates the `kill_logs` / `command_logs`
caches that `KillEntry.__init__` / `CommandEntry.__init__` dereference, so
both constructions fail with `AttributeError` on a fresh server cache. -/
theorem c4_kill_command_attribute_error :
    killEntryInit ServerCacheState.init
        { timestamp := 100, killedId := 1, killerId := 2 }
      = Except.error PyErr.attributeError ∧
    commandEntryInit ServerCacheState.init { timestamp := 100, authorId := 3 }
      = Except.error PyErr.attributeError :=
  ⟨rfl, rfl⟩

/-- Claim C5: Mod-call exemption: `ModCallEntry` construction never consults
or mutates any bounded sequence and applies no dedup predicate — the
server cache comes back unchanged after constructing any two mod-call
entries (in particular two with identical timestamp and caller id), and
each parsed entry is returned verbatim. -/
theorem c5_mod_call_exempt (sc : ServerCacheState) (d1 d2 : ModCallData) :
    (modCallEntryInit sc d1).2 = sc ∧
    (modCallEntryInit (modCallEntryInit sc d1).2 d2).2 = sc ∧
    (modCallEntryInit sc d1).1 =
      { created_at := d1.timestamp, callerId := d1.callerId,
        responderId := d1.moderator,
        is_acknowledged := d1.moderator.isSome } :=
  ⟨rfl, rfl, rfl⟩

/-! ## `_ephemeral` memoization (`src/prc/server.py` lines 50-62) -/

/-- The memo slots `_ephemeral` attaches to one owning object: one
`<operation>_cache` attribute per operation name, holding the cached result
and the event-loop time at which it was stored, plus an instrumentation
counter of how many times wrapped operation bodies actually ran. -/
structure MemoState (Op V : Type) where
  slots : List (Op × V × Time)
  runs : Nat

/-- Python `hasattr`/`getattr` on the `<op>_cache` attribute. -/
def MemoState.slot {Op V : Type} [DecidableEq Op] (s : MemoState Op V)
    (op : Op) : Option (V × Time) :=
  match s.slots.find? (fun e => e.1 == op) with
  | none => none
  | some e => some e.2

/-- Python `setattr` on the `<op>_cache` attribute: overwrite any previous slot. -/
def MemoState.setSlot {Op V : Type} [DecidableEq Op] (s : MemoState Op V)
    (op : Op) (v : V) (t : Time) : List (Op × V × Time) :=
  s.slots.filter (fun e => !(e.1 == op)) ++ [(op, v, t)]

/-- The `_ephemeral(func)` wrapper: read the `<op>_cache` slot; a hit
younger than `ephemeral_ttl` returns the cached result without running the
body; otherwise run the body — a raised exception propagates before any
write happens — and on success store `(result, tAfter)`, where `tNow` is
the loop time read for the staleness check and `tAfter` the loop time read
after the awaited call returns. `runs` counts body executions. -/
def ephemeralInvoke {Op V E : Type} [DecidableEq Op] (ttl : Nat) (op : Op)
    (tNow tAfter : Time) (body : Unit → Except E V) (s : MemoState Op V) :
    Except E V × MemoState Op V :=
  let run : Except E V × MemoState Op V :=
    match body () with
    | Except.error e => (Except.error e, { s with runs := s.runs + 1 })
    | Except.ok v =>
      (Except.ok v, { slots := s.setSlot op v tAfter, runs := s.runs + 1 })
  match s.slot op with
  | some vt => if tNow - vt.2 < (ttl : Int) then (Except.ok vt.1, s) else run
  | none => run

theorem find?_filter_not_key {Op V : Type} [DecidableEq Op]
    (l : List (Op × V × Time)) (op : Op) :
    (l.filter (fun e => !(e.1 == op))).find? (fun e => e.1 == op) = none := by
  induction l with
  | nil => rfl
  | cons x xs ih =>
    by_cases h : x.1 = op
    · simp [List.filter_cons, h, ih]
    · simp [List.filter_cons, h, ih, List.find?_cons]

theorem slot_setSlot_self {Op V : Type} [DecidableEq Op] (s : MemoState Op V)
    (op : Op) (v : V) (t : Time) (n : Nat) :
    (MemoState.mk (s.setSlot op v t) n).slot op = some (v, t) := by
  unfold MemoState.slot MemoState.setSlot
  rw [List.find?_append, find?_filter_not_key]
  simp [List.find?_cons]

/-- Claim C2: Ephemeral memoization window: a call finding a slot written
less than `ephemeral_ttl` seconds ago returns the cached value without
running the body; any other call runs the body exactly once, overwrites the
slot with the fresh result and the post-call time, and returns that result;
consequently two calls within the window run the body exactly once, and a
call after the window runs it again. -/
theorem c2_ephemeral_window (Op V E : Type) [DecidableEq Op] (ttl : Nat)
    (op : Op) (s : MemoState Op V) (tNow tAfter : Time) (body : Unit → V) :
    (∀ v0 t0, s.slot op = some (v0, t0) → tNow - t0 < (ttl : Int) →
      ephemeralInvoke (E := E) ttl op tNow tAfter
        (fun u => Except.ok (body u)) s = (Except.ok v0, s)) ∧
    ((∀ v0 t0, s.slot op = some (v0, t0) → ¬(tNow - t0 < (ttl : Int))) →
      ephemeralInvoke (E := E) ttl op tNow tAfter
        (fun u => Except.ok (body u)) s =
        (Except.ok (body ()),
          MemoState.mk (s.setSlot op (body ()) tAfter) (s.runs + 1))) ∧
    (s.slot op = none →
      ∀ (b2 : Unit → V) (t2 t2' : Time), t2 - tAfter < (ttl : Int) →
        (ephemeralInvoke (E := E) ttl op t2 t2'
            (fun u => Except.ok (b2 u))
            (ephemeralInvoke (E := E) ttl op tNow tAfter
              (fun u => Except.ok (body u)) s).2).1 = Except.ok (body ()) ∧
        (ephemeralInvoke (E := E) ttl op t2 t2'
            (fun u => Except.ok (b2 u))
            (ephemeralInvoke (E := E) ttl op tNow tAfter
              (fun u => Except.ok (body u)) s).2).2.runs = s.runs + 1 ∧
        (∀ (b3 : Unit → V) (t3 t3' : Time), ¬(t3 - tAfter < (ttl : Int)) →
          (ephemeralInvoke (E := E) ttl op t3 t3'
              (fun u => Except.ok (b3 u))
              (ephemeralInvoke (E := E) ttl op t2 t2'
                (fun u => Except.ok (b2 u))
                (ephemeralInvoke (E := E) ttl op tNow tAfter
                  (fun u => Except.ok (body u)) s).2).2).2.runs
            = s.runs + 2)) := by
  refine ⟨?_, ?_, ?_⟩
  · intro v0 t0 h hlt
    simp only [ephemeralInvoke, h]
    rw [if_pos hlt]
  · intro hstale
    cases hs : s.slot op with
    | none => simp only [ephemeralInvoke, hs]
    | some vt =>
      have := hstale vt.1 vt.2 (by rw [hs])
      simp only [ephemeralInvoke, hs]
      rw [if_neg this]
  · intro hnone b2 t2 t2' hwin
    have h1 : ephemeralInvoke (E := E) ttl op tNow tAfter
        (fun u => Except.ok (body u)) s =
        (Except.ok (body ()),
          MemoState.mk (s.setSlot op (body ()) tAfter) (s.runs + 1)) := by
      simp only [ephemeralInvoke, hnone]
    rw [h1]
    have hslot := slot_setSlot_self s op (body ()) tAfter (s.runs + 1)
    have h2 : ephemeralInvoke (E := E) ttl op t2 t2'
        (fun u => Except.ok (b2 u))
        (MemoState.mk (s.setSlot op (body ()) tAfter) (s.runs + 1)) =
        (Except.ok (body ()),
          MemoState.mk (s.setSlot op (body ()) tAfter) (s.runs + 1)) := by
      simp only [ephemeralInvoke, hslot]
      rw [if_pos hwin]
    rw [h2]
    refine ⟨rfl, rfl, ?_⟩
    intro b3 t3 t3' hout
    simp only [ephemeralInvoke, hslot]
    rw [if_neg hout]

theorem c2_ephemeral_window_witness :
    ephemeralInvoke (E := Unit) 5 (0 : Nat) 0 0
        (fun _u => Except.ok (41 : Nat)) (MemoState.mk [(0, 41, 0)] 1)
      = (Except.ok 41, MemoState.mk [(0, 41, 0)] 1) ∧
    ((ephemeralInvoke (E := Unit) 5 (0 : Nat) 3 3
        (fun _u => Except.ok (42 : Nat))
        (ephemeralInvoke (E := Unit) 5 (0 : Nat) 0 0
          (fun _u => Except.ok (41 : Nat)) (MemoState.mk [] 0)).2).1
      = Except.ok 41 ∧
     (ephemeralInvoke (E := Unit) 5 (0 : Nat) 3 3
        (fun _u => Except.ok (42 : Nat))
        (ephemeralInvoke (E := Unit) 5 (0 : Nat) 0 0
          (fun _u => Except.ok (41 : Nat)) (MemoState.mk [] 0)).2).2.runs
      = 1) := by
  refine ⟨?_, ?_⟩
  · exact (c2_ephemeral_window Nat Nat Unit 5 0 (MemoState.mk [(0, 41, 0)] 1)
      0 0 (fun _u => 41)).1 41 0 rfl (by decide)
  · have h := (c2_ephemeral_window Nat Nat Unit 5 0 (MemoState.mk [] 0)
      0 0 (fun _u => 41)).2.2 rfl (fun _u => 42) 3 3 (by decide)
    exact ⟨h.1, by rw [h.2.1]⟩

/-- Claim C3: No failure caching: when the wrapped body raises, the exception
propagates to the caller unchanged, the memo slots are left untouched (no
slot is written), and a subsequent call at any time not before the first
still re-attempts the body — its result is whatever the body returns, never
a cached failure. -/
theorem c3_no_failure_caching (Op V E : Type) [DecidableEq Op] (ttl : Nat)
    (op : Op) (s : MemoState Op V) (tNow tAfter : Time) (err : E)
    (hmiss : ∀ v0 t0, s.slot op = some (v0, t0) → ¬(tNow - t0 < (ttl : Int))) :
    (ephemeralInvoke ttl op tNow tAfter (fun _u => Except.error err) s
      = (Except.error err, { s with runs := s.runs + 1 })) ∧
    (∀ (body2 : Unit → Except E V) (t2 t2' : Time), tNow ≤ t2 →
      (ephemeralInvoke ttl op t2 t2' body2
          (ephemeralInvoke ttl op tNow tAfter
            (fun _u => Except.error err) s).2).1 = body2 () ∧
      (ephemeralInvoke ttl op t2 t2' body2
          (ephemeralInvoke ttl op tNow tAfter
            (fun _u => Except.error err) s).2).2.runs = s.runs + 2) := by
  have h1 : ephemeralInvoke ttl op tNow tAfter
      (fun _u => Except.error err) s
      = (Except.error err, { s with runs := s.runs + 1 }) := by
    cases hs : s.slot op with
    | none => simp only [ephemeralInvoke, hs]
    | some vt =>
      have := hmiss vt.1 vt.2 (by rw [hs])
      simp only [ephemeralInvoke, hs]
      rw [if_neg this]
  refine ⟨h1, ?_⟩
  intro body2 t2 t2' hle
  rw [h1]
  have hslot2 : (MemoState.mk s.slots (s.runs + 1) : MemoState Op V).slot op
      = s.slot op := rfl
  have hmiss2 : ∀ v0 t0,
      ({ s with runs := s.runs + 1 } : MemoState Op V).slot op = some (v0, t0) →
      ¬(t2 - t0 < (ttl : Int)) := by
    intro v0 t0 h hlt
    exact hmiss v0 t0 h (lt_of_le_of_lt (Int.sub_le_sub_right hle t0) hlt)
  cases hs : ({ s with runs := s.runs + 1 } : MemoState Op V).slot op with
  | none =>
    simp only [ephemeralInvoke, hs]
    cases hb : body2 () <;> simp
  | some vt =>
    have := hmiss2 vt.1 vt.2 (by rw [hs])
    simp only [ephemeralInvoke, hs]
    rw [if_neg this]
    cases hb : body2 () <;> simp

theorem c3_no_failure_caching_witness :
    (ephemeralInvoke 5 (0 : Nat) 0 0
        (fun _u => Except.error ()) (MemoState.mk ([] : List (Nat × Nat × Time)) 0)
      = (Except.error (), MemoState.mk [] 1)) ∧
    ((ephemeralInvoke (E := Unit) 5 (0 : Nat) 10 10
        (fun _u => Except.ok (5 : Nat))
        (ephemeralInvoke 5 (0 : Nat) 0 0 (fun _u => Except.error ())
          (MemoState.mk [] 0)).2).1 = Except.ok 5 ∧
     (ephemeralInvoke (E := Unit) 5 (0 : Nat) 10 10
        (fun _u => Except.ok (5 : Nat))
        (ephemeralInvoke 5 (0 : Nat) 0 0 (fun _u => Except.error ())
          (MemoState.mk [] 0)).2).2.runs = 2) := by
  have h := c3_no_failure_caching Nat Nat Unit 5 0 (MemoState.mk [] 0) 0 0 ()
    (fun _v0 _t0 hx => Option.noConfusion hx)
  exact ⟨h.1, (h.2 (fun _u => Except.ok 5) 10 10 (by decide)).1,
    (h.2 (fun _u => Except.ok 5) 10 10 (by decide)).2⟩

/-! ## Bounded capacity and FIFO eviction (`prc.utility.Cache`) -/

/-- Run a sequence of `set` calls, threading the cache. -/
def runSets {K V : Type} [DecidableEq K] (c0 : Cache K V)
    (ops : List (Time × K × V)) : Cache K V :=
  ops.foldl (fun c o => (c.set o.1 o.2.1 o.2.2).2) c0

theorem Cache.set_capacity {K V : Type} [DecidableEq K] (c : Cache K V)
    (now : Time) (k : K) (v : V) : ((c.set now k v).2).capacity = c.capacity :=
  rfl

theorem Cache.set_length_le {K V : Type} [DecidableEq K] (c : Cache K V)
    (now : Time) (k : K) (v : V) (hcap : 0 < c.capacity)
    (h : c.entries.length ≤ c.capacity) :
    ((c.set now k v).2).entries.length ≤ c.capacity := by
  unfold Cache.set
  simp only
  by_cases hany : c.entries.any (fun e => e.1 == k)
  · rw [if_pos hany]
    have hex : ∃ e ∈ c.entries, ¬((!(e.1 == k)) = true) := by
      rcases List.any_eq_true.mp hany with ⟨e, he, hk⟩
      exact ⟨e, he, by simp [hk]⟩
    have hlt := List.length_filter_lt_length_iff_exists
      (l := c.entries) (p := fun e => !(e.1 == k)) |>.mpr hex
    rw [List.length_append]
    simp only [List.length_singleton]
    omega
  · rw [if_neg hany]
    by_cases hfull : c.entries.length = c.capacity
    · rw [if_pos hfull]
      rw [List.length_append, List.length_drop]
      simp only [List.length_singleton]
      omega
    · rw [if_neg hfull]
      rw [List.length_append]
      simp only [List.length_singleton]
      omega

theorem runSets_length_le {K V : Type} [DecidableEq K]
    (ops : List (Time × K × V)) (c : Cache K V) (hcap : 0 < c.capacity)
    (h : c.entries.length ≤ c.capacity) :
    (runSets c ops).entries.length ≤ c.capacity := by
  induction ops generalizing c with
  | nil => exact h
  | cons o os ih =>
    have hstep := Cache.set_length_le c o.1 o.2.1 o.2.2 hcap h
    have hc : (runSets c (o :: os)) = runSets ((c.set o.1 o.2.1 o.2.2).2) os :=
      rfl
    rw [hc]
    exact ih ((c.set o.1 o.2.1 o.2.2).2) hcap hstep

theorem Cache.set_evicts_oldest {K V : Type} [DecidableEq K] (c : Cache K V)
    (now : Time) (k : K) (v : V) (habs : ∀ e ∈ c.entries, e.1 ≠ k)
    (hfull : c.entries.length = c.capacity) :
    ((c.set now k v).2).entries = c.entries.drop 1 ++ [(k, v, now)] := by
  unfold Cache.set
  simp only
  have hany : c.entries.any (fun e => e.1 == k) = false := by
    cases hb : c.entries.any (fun e => e.1 == k)
    · rfl
    · rcases List.any_eq_true.mp hb with ⟨e, he, hk⟩
      exact absurd (by simpa using hk) (habs e he)
  rw [hany]
  simp [hfull]

/-- Claim C6: Bounded capacity with FIFO eviction: any sequence of `set`
calls starting from an empty cache of positive capacity leaves at most
`capacity` entries; inserting a new key into a full cache evicts the entry
at the earliest insertion-order position; any `set` (re-)places its key at
the freshest position with the current timestamp; and the capacity-2 TTL-0
scenario `set(1,a)`, `set(2,b)`, `set(3,c)` leaves exactly `(2,b),(3,c)`. -/
theorem c6_bounded_fifo (K V : Type) [DecidableEq K] (capacity ttl : Nat)
    (hcap : 0 < capacity) (ops : List (Time × K × V)) :
    (runSets (Cache.mk capacity ttl []) ops).entries.length ≤ capacity ∧
    (∀ (c : Cache K V) (now : Time) (k : K) (v : V),
      (∀ e ∈ c.entries, e.1 ≠ k) → c.entries.length = c.capacity →
      ((c.set now k v).2).entries = c.entries.drop 1 ++ [(k, v, now)]) ∧
    (∀ (c : Cache K V) (now : Time) (k : K) (v : V),
      ((c.set now k v).2).entries.getLast? = some (k, v, now)) ∧
    ((runSets (Cache.mk 2 0 ([] : List (Nat × String × Time)))
        [(0, 1, "a"), (0, 2, "b"), (0, 3, "c")]).items 0
      = [(2, "b"), (3, "c")]) := by
  refine ⟨runSets_length_le ops _ hcap (by simp), ?_, ?_, by decide⟩
  · intro c now k v habs hfull
    exact Cache.set_evicts_oldest c now k v habs hfull
  · intro c now k v
    unfold Cache.set
    simp only
    by_cases hany : c.entries.any (fun e => e.1 == k)
    · rw [if_pos hany]
      simp
    · rw [if_neg hany]
      by_cases hfull : c.entries.length = c.capacity
      · rw [if_pos hfull]
        simp
      · rw [if_neg hfull]
        simp

theorem c6_bounded_fifo_witness :
    (runSets (Cache.mk 2 0 ([] : List (Nat × String × Time)))
        [(0, 1, "a"), (0, 2, "b"), (0, 3, "c")]).entries.length ≤ 2 ∧
    ((Cache.mk 2 0 [(1, "a", 0), (2, "b", 0)] : Cache Nat String).set 0 3
        "c").2.entries = [(2, "b", 0), (3, "c", 0)] ∧
    (runSets (Cache.mk 2 0 ([] : List (Nat × String × Time)))
        [(0, 1, "a"), (0, 2, "b"), (0, 3, "c")]).items 0
      = [(2, "b"), (3, "c")] := by
  have h := c6_bounded_fifo Nat String 2 0 (by decide)
    [(0, 1, "a"), (0, 2, "b"), (0, 3, "c")]
  refine ⟨h.1, ?_, h.2.2.2⟩
  have h2 := h.2.1 (Cache.mk 2 0 [(1, "a", 0), (2, "b", 0)]) 0 3 "c"
    (by decide) rfl
  simpa using h2

/-! ## Server-key validation and parsing (`src/prc/client.py` lines 77-84) -/

/-- ASCII letter: what `[a-z]` matches under `re.IGNORECASE` (restricted to
ASCII input). -/
def isAsciiLetter (c : Char) : Bool :=
  (97 ≤ c.toNat && c.toNat ≤ 122) || (65 ≤ c.toNat && c.toNat ≤ 90)

/-- Python `re.match(..., re.IGNORECASE)` for the exact pattern of
`_validate_server_key`, `^[a-z]{10,}\-[a-z]{40,}$`: at least 10 letters, a
dash, at least 40 letters. Python's `$` also matches just before a single
trailing newline, hence the `['\n']` alternative. -/
def matchServerKey (s : List Char) : Bool :=
  let p1 := s.takeWhile isAsciiLetter
  match s.dropWhile isAsciiLetter with
  | [] => false
  | c :: rest =>
    if c = '-' then
      let p2 := rest.takeWhile isAsciiLetter
      let r2 := rest.dropWhile isAsciiLetter
      decide (10 ≤ p1.length) && decide (40 ≤ p2.length) &&
        (r2.isEmpty || r2 == ['\n'])
    else false

/-- Method `PRC._validate_server_key`: `ValueError` exactly when the pattern does
not match. -/
def validateServerKey (s : List Char) : Except PyErr Unit :=
  if matchServerKey s then Except.ok () else Except.error PyErr.valueError

/-- Python `str.split("-")`: split at every dash, keeping empty parts. -/
def splitDash : List Char → List (List Char)
  | [] => [[]]
  | c :: rest =>
    if c = '-' then [] :: splitDash rest
    else
      match splitDash rest with
      | [] => [[c]]
      | p :: ps => (c :: p) :: ps

/-- Method `PRC._get_server_id`: `server_key.split("-")[1]`; `none` models the
`IndexError` when the index is out of range. -/
def getServerId (s : List Char) : Option (List Char) :=
  (splitDash s).get? 1

theorem splitDash_no_dash (l : List Char) (h : ∀ c ∈ l, c ≠ '-') :
    splitDash l = [l] := by
  induction l with
  | nil => rfl
  | cons c rest ih =>
    have hc := h c (List.mem_cons_self c rest)
    have hrest := ih (fun x hx => h x (List.mem_cons_of_mem c hx))
    simp only [splitDash]
    rw [if_neg hc, hrest]

theorem splitDash_append (a b : List Char) (ha : ∀ c ∈ a, c ≠ '-') :
    splitDash (a ++ '-' :: b) = a :: splitDash b := by
  induction a with
  | nil => simp [splitDash]
  | cons c rest ih =>
    have hc := ha c (List.mem_cons_self c rest)
    have hrest := ih (fun x hx => ha x (List.mem_cons_of_mem c hx))
    simp only [List.cons_append, splitDash]
    rw [if_neg hc]
    have happ : rest.append ('-' :: b) = rest ++ '-' :: b := rfl
    rw [happ, hrest]

theorem splitDash_nonempty (l : List Char) : splitDash l ≠ [] := by
  cases l with
  | nil => simp [splitDash]
  | cons c rest =>
    simp only [splitDash]
    split
    · simp
    · split
      · simp
      · simp

theorem letter_ne_dash (c : Char) (h : isAsciiLetter c = true) : c ≠ '-' := by
  intro hEq
  rw [hEq] at h
  exact absurd h (by decide)

/-- Claim C10: `_validate_server_key` raises `ValueError` exactly when the
key fails the pattern; every accepted key splits on the dash into exactly
two parts, so `_get_server_id`'s `parsed_key[1]` never fails and returns
the second segment — 40 or more letters, possibly with the single trailing
newline that Python's `$` tolerates. -/
theorem c10_key_validation (s : List Char) :
    (validateServerKey s = Except.ok () ↔ matchServerKey s = true) ∧
    (matchServerKey s = true →
      ∃ a b tail, splitDash s = [a, b ++ tail] ∧
        getServerId s = some (b ++ tail) ∧
        10 ≤ a.length ∧ (∀ c ∈ a, isAsciiLetter c = true) ∧
        40 ≤ b.length ∧ (∀ c ∈ b, isAsciiLetter c = true) ∧
        (tail = [] ∨ tail = ['\n'])) := by
  constructor
  · unfold validateServerKey
    by_cases h : matchServerKey s = true
    · rw [if_pos h]
      simp [h]
    · rw [if_neg (by simpa using h)]
      simp [h]
  · intro h
    unfold matchServerKey at h
    simp only at h
    cases hd : s.dropWhile isAsciiLetter with
    | nil =>
      rw [hd] at h
      simp at h
    | cons c0 rest =>
      rw [hd] at h
      simp only at h
      by_cases hc0 : c0 = '-'
      case neg =>
        rw [if_neg hc0] at h
        simp at h
      case pos =>
        rw [if_pos hc0] at h
        subst hc0
        simp only [Bool.and_eq_true, Bool.or_eq_true, decide_eq_true_eq,
          List.isEmpty_iff, beq_iff_eq] at h
        obtain ⟨⟨h1, h2⟩, h3⟩ := h
        have hnod : ∀ c ∈ rest, c ≠ '-' := by
          intro c hcr
          rw [← List.takeWhile_append_dropWhile isAsciiLetter rest] at hcr
          rcases List.mem_append.mp hcr with hcl | hcr2
          · exact letter_ne_dash c (List.mem_takeWhile_imp hcl)
          · rcases h3 with h3 | h3
            · rw [h3] at hcr2
              simp at hcr2
            · rw [h3] at hcr2
              rw [List.mem_singleton.mp hcr2]
              decide
        have hsplit : splitDash s = [s.takeWhile isAsciiLetter, rest] := by
          conv_lhs =>
            rw [← List.takeWhile_append_dropWhile isAsciiLetter s, hd]
          rw [splitDash_append _ _
            (fun c hc => letter_ne_dash c (List.mem_takeWhile_imp hc)),
            splitDash_no_dash rest hnod]
        refine ⟨s.takeWhile isAsciiLetter, rest.takeWhile isAsciiLetter,
          rest.dropWhile isAsciiLetter, ?_, ?_, h1,
          fun c hc => List.mem_takeWhile_imp hc, h2,
          fun c hc => List.mem_takeWhile_imp hc, h3⟩
        · rw [hsplit, List.takeWhile_append_dropWhile]
        · show (splitDash s).get? 1 = _
          rw [hsplit, List.takeWhile_append_dropWhile]
          rfl

/-- Concrete sample key: 10 `a`s, a dash, 40 `b`s. -/
def sampleServerId : List Char := List.replicate 40 'b'

def sampleServerKey : List Char :=
  List.replicate 10 'a' ++ '-' :: List.replicate 40 'b'

theorem c10_key_validation_witness :
    (validateServerKey sampleServerKey = Except.ok () ↔
      matchServerKey sampleServerKey = true) ∧
    (∃ a b tail, splitDash sampleServerKey = [a, b ++ tail] ∧
      getServerId sampleServerKey = some (b ++ tail) ∧
      10 ≤ a.length ∧ (∀ c ∈ a, isAsciiLetter c = true) ∧
      40 ≤ b.length ∧ (∀ c ∈ b, isAsciiLetter c = true) ∧
      (tail = [] ∨ tail = ['\n'])) :=
  ⟨(c10_key_validation sampleServerKey).1,
    (c10_key_validation sampleServerKey).2 (by decide)⟩

/-! ## Server identity resolution (`src/prc/client.py` lines 47-68) -/

/-- Placeholder for global `Player` records (the parser,
`models/player.py`, is not under `src/`). -/
structure Player where
  id : Nat
  deriving DecidableEq, Repr

/-- Constructor `Server.__init__` as far as identity resolution is concerned
(src/prc/server.py lines 68-96): the id parsed from the key, the key
itself, and the `_ignore_global_key` flag. -/
structure Server where
  id : List Char
  serverKey : List Char
  ignore_global_key : Bool
  deriving DecidableEq, Repr

/-- Constructor `GlobalCache.__init__` (src/prc/client.py lines 17-26): `servers`
(capacity 2, no TTL) and `players` (capacity 100, no TTL). -/
structure GlobalCacheState where
  servers : Cache (List Char) Server
  players : Cache Nat Player
  deriving Repr

/-- A fresh `GlobalCache()`. -/
def GlobalCacheState.init : GlobalCacheState :=
  { servers := { capacity := 2, ttl := 0, entries := [] }
    players := { capacity := 100, ttl := 0, entries := [] } }

theorem Cache.set_fst {K V : Type} [DecidableEq K] (c : Cache K V)
    (now : Time) (k : K) (v : V) : (c.set now k v).1 = v := rfl

theorem Cache.set_entries_def {K V : Type} [DecidableEq K] (c : Cache K V)
    (now : Time) (k : K) (v : V) :
    ((c.set now k v).2).entries =
      if c.entries.any (fun e => e.1 == k) then
        c.entries.filter (fun e => !(e.1 == k)) ++ [(k, v, now)]
      else if c.entries.length = c.capacity then
        c.entries.drop 1 ++ [(k, v, now)]
      else c.entries ++ [(k, v, now)] := rfl

theorem find?_key_none {K V : Type} [DecidableEq K] (l : List (K × V × Time))
    (k : K) (h : ∀ e ∈ l, e.1 ≠ k) : l.find? (fun e => e.1 == k) = none := by
  induction l with
  | nil => rfl
  | cons x xs ih =>
    have hx := h x (List.mem_cons_self x xs)
    simp only [List.find?_cons]
    have hb : (x.1 == k) = false := by simpa using hx
    rw [hb]
    exact ih (fun e he => h e (List.mem_cons_of_mem x he))

theorem Cache.get_set_self {K V : Type} [DecidableEq K] (c : Cache K V)
    (now : Time) (k : K) (v : V) :
    ((c.set now k v).2).get now k = some v := by
  have hfind : ((c.set now k v).2).entries.find? (fun e => e.1 == k)
      = some (k, v, now) := by
    rw [Cache.set_entries_def]
    by_cases hany : c.entries.any (fun e => e.1 == k)
    · rw [if_pos hany, List.find?_append, find?_filter_not_key]
      simp [List.find?_cons]
    · have habs : ∀ e ∈ c.entries, e.1 ≠ k := by
        intro e he heq
        exact hany (List.any_eq_true.mpr ⟨e, he, by simp [heq]⟩)
      rw [if_neg hany]
      by_cases hfull : c.entries.length = c.capacity
      · rw [if_pos hfull, List.find?_append,
          find?_key_none _ k (fun e he => habs e (List.mem_of_mem_drop he))]
        simp [List.find?_cons]
      · rw [if_neg hfull, List.find?_append, find?_key_none _ k habs]
        simp [List.find?_cons]
  unfold Cache.get
  rw [hfind]
  by_cases ht : ((c.set now k v).2).ttl = 0
  · simp [ht]
  · have h0 : (0 : Int) < (((c.set now k v).2).ttl : Int) := by
      have := Nat.pos_of_ne_zero ht
      exact_mod_cast this
    simp [ht, Int.sub_self, h0]

/-- Method `PRC.get_server` (src/prc/client.py lines 47-68): resolve the key
(falling back to the default, raising `ValueError` when absent or invalid),
parse the server id, then read the global `servers` cache; a cached server
whose `_ignore_global_key` equals the argument is returned as-is, otherwise
a fresh `Server` is constructed, stored under the id, and returned. The
Python function is a plain synchronous `def` with no `await`, so the whole
read-then-conditional-write is one pure state transition here. -/
def getServer (defaultServerKey : Option (List Char)) (gc : GlobalCacheState)
    (serverKeyArg : Option (List Char)) (ignoreGlobalKey : Bool) (now : Time) :
    Except PyErr (Server × GlobalCacheState) :=
  match
    (match serverKeyArg with
     | some k => if k.isEmpty then defaultServerKey else some k
     | none => defaultServerKey) with
  | none => Except.error PyErr.valueError
  | some key =>
    if key.isEmpty then Except.error PyErr.valueError
    else if matchServerKey key then
      match getServerId key with
      | none => Except.error PyErr.indexError
      | some sid =>
        match gc.servers.get now sid with
        | some s =>
          if s.ignore_global_key = ignoreGlobalKey then Except.ok (s, gc)
          else
            Except.ok ((gc.servers.set now sid
                { id := sid, serverKey := key,
                  ignore_global_key := ignoreGlobalKey }).1,
              { gc with servers := (gc.servers.set now sid
                  { id := sid, serverKey := key,
                    ignore_global_key := ignoreGlobalKey }).2 })
        | none =>
          Except.ok ((gc.servers.set now sid
              { id := sid, serverKey := key,
                ignore_global_key := ignoreGlobalKey }).1,
            { gc with servers := (gc.servers.set now sid
                { id := sid, serverKey := key,
                  ignore_global_key := ignoreGlobalKey }).2 })
    else Except.error PyErr.valueError

/-- Claim C7: Server identity resolution: for a valid key whose id is `sid`,
if the global servers cache holds a server under `sid` with the same
`ignore_global_key` flag, that exact cached object is returned and the
state is unchanged; otherwise a freshly constructed server is stored under
`sid` (and is read back from the resulting cache) and returned, the players
cache untouched. The operation is a single pure transition — the source has
no suspension point. -/
theorem c7_get_server (dsk : Option (List Char)) (gc : GlobalCacheState)
    (key : List Char) (flag : Bool) (now : Time) (sid : List Char)
    (hk : matchServerKey key = true) (hid : getServerId key = some sid) :
    (∀ s, gc.servers.get now sid = some s → s.ignore_global_key = flag →
      getServer dsk gc (some key) flag now = Except.ok (s, gc)) ∧
    ((gc.servers.get now sid = none ∨
      (∃ s, gc.servers.get now sid = some s ∧ s.ignore_global_key ≠ flag)) →
      getServer dsk gc (some key) flag now =
        Except.ok
          ({ id := sid, serverKey := key, ignore_global_key := flag },
            { gc with
              servers := (gc.servers.set now sid
                { id := sid, serverKey := key,
                  ignore_global_key := flag }).2 }) ∧
      ((gc.servers.set now sid
          { id := sid, serverKey := key, ignore_global_key := flag }).2).get
          now sid
        = some { id := sid, serverKey := key, ignore_global_key := flag }) := by
  have hne : key.isEmpty = false := by
    cases key with
    | nil => exact absurd hk (by decide)
    | cons a l => rfl
  constructor
  · intro s hs hflag
    simp [getServer, hne, hk, hid, hs, hflag]
  · intro hmiss
    refine ⟨?_, Cache.get_set_self gc.servers now sid _⟩
    rcases hmiss with hs | ⟨s, hs, hflag⟩
    · simp [getServer, hne, hk, hid, hs, Cache.set_fst]
    · simp [getServer, hne, hk, hid, hs, hflag, Cache.set_fst]

theorem c7_get_server_witness :
    getServer none GlobalCacheState.init (some sampleServerKey) false 0 =
      Except.ok
        ({ id := sampleServerId, serverKey := sampleServerKey,
           ignore_global_key := false },
          { GlobalCacheState.init with
            servers := (GlobalCacheState.init.servers.set 0 sampleServerId
              { id := sampleServerId, serverKey := sampleServerKey,
                ignore_global_key := false }).2 }) :=
  ((c7_get_server none GlobalCacheState.init sampleServerKey false 0
      sampleServerId (by decide) (by decide)).2 (Or.inl (by decide))).1

/-! ## Default-argument cache sharing (`PRC.__init__`, `Server.__init__`)

Python evaluates a `def`'s default parameter expressions once, when the
`def` itself is executed. `PRC.__init__` declares `cache=GlobalCache()`
(src/prc/client.py line 37) and `Server.__init__` declares
`cache: ServerCache = ServerCache()` (src/prc/server.py line 73), so a
single default cache object per class is allocated at class-definition time
and referenced by every instance constructed without an explicit `cache`
argument. Object identity is modelled by references into a heap. -/

/-- A heap of allocated cache objects: Python object identity is a
reference (index), distinct from structural value. -/
structure Heap (A : Type) where
  next : Nat
  store : List (Nat × A)

def Heap.empty (A : Type) : Heap A := ⟨0, []⟩

def Heap.alloc {A : Type} (h : Heap A) (a : A) : Nat × Heap A :=
  (h.next, ⟨h.next + 1, (h.next, a) :: h.store⟩)

def Heap.read {A : Type} (h : Heap A) (r : Nat) : Option A :=
  match h.store.find? (fun e => e.1 == r) with
  | none => none
  | some e => some e.2

/-- Mutating the object behind a reference: the newest binding shadows. -/
def Heap.write {A : Type} (h : Heap A) (r : Nat) (a : A) : Heap A :=
  ⟨h.next, (r, a) :: h.store⟩

/-- Executing `class PRC` evaluates `cache=GlobalCache()` once: one shared
default `GlobalCache` allocation. -/
def prcClassDefaultAlloc (h : Heap GlobalCacheState) :
    Nat × Heap GlobalCacheState :=
  h.alloc GlobalCacheState.init

/-- Binding in `PRC.__init__`: `self._global_cache = cache`: the explicit argument,
or the shared default reference evaluated at class-definition time. -/
def prcInitCacheRef (defaultRef : Nat) (cacheArg : Option Nat) : Nat :=
  cacheArg.getD defaultRef

/-- Executing `class Server` evaluates `cache: ServerCache = ServerCache()`
once: one shared default `ServerCache` allocation. -/
def serverClassDefaultAlloc (h : Heap ServerCacheState) :
    Nat × Heap ServerCacheState :=
  h.alloc ServerCacheState.init

/-- Binding in `Server.__init__`: `self._server_cache = cache`. -/
def serverInitCacheRef (defaultRef : Nat) (cacheArg : Option Nat) : Nat :=
  cacheArg.getD defaultRef

/-- A global cache as it looks after one server has been inserted. -/
def sampleGlobalCache : GlobalCacheState :=
  { GlobalCacheState.init with
    servers := (GlobalCacheState.init.servers.set 0 sampleServerId
      { id := sampleServerId, serverKey := sampleServerKey,
        ignore_global_key := false }).2 }

/-- Claim C8: The claim asserts that two `PRC` clients (and two `Server`s)
constructed without an explicit cache argument own independent caches. In
the code both constructors take the cache from a default argument that
Python evaluated once, so the two clients hold the *same* reference, and a
write through the first client's reference is read back through the second
client's reference; likewise for two default-constructed `Server`s. -/
theorem c8_default_caches_shared :
    (prcInitCacheRef (prcClassDefaultAlloc (Heap.empty GlobalCacheState)).1
        none =
      prcInitCacheRef (prcClassDefaultAlloc (Heap.empty GlobalCacheState)).1
        none ∧
      ((prcClassDefaultAlloc (Heap.empty GlobalCacheState)).2.write
          (prcInitCacheRef
            (prcClassDefaultAlloc (Heap.empty GlobalCacheState)).1 none)
          sampleGlobalCache).read
        (prcInitCacheRef (prcClassDefaultAlloc (Heap.empty GlobalCacheState)).1
          none)
        = some sampleGlobalCache) ∧
    (serverInitCacheRef
        (serverClassDefaultAlloc (Heap.empty ServerCacheState)).1 none =
      serverInitCacheRef
        (serverClassDefaultAlloc (Heap.empty ServerCacheState)).1 none ∧
      ((serverClassDefaultAlloc (Heap.empty ServerCacheState)).2.write
          (serverInitCacheRef
            (serverClassDefaultAlloc (Heap.empty ServerCacheState)).1 none)
          sampleServerCache).read
        (serverInitCacheRef
          (serverClassDefaultAlloc (Heap.empty ServerCacheState)).1 none)
        = some sampleServerCache) :=
  ⟨⟨rfl, rfl⟩, ⟨rfl, rfl⟩⟩

end PrcApi
